import Mathlib

/-!
Verification of the SkSL DSLWriter front-end construction layer
(src/sksl/dsl/DSLWriter.h): the thread-scoped build context, name mangler,
modifier interning pool, expression conversion pipeline, error-reporting hook
and the nested build-target (fragment-processor) stack.

The header in the repository declares the class and gives inline bodies for
the accessors (CurrentProcessor, CurrentEmitArgs, SetErrorHandler,
ManglingEnabled, ProgramElements) together with the field default values
(fErrorHandler = nullptr, fMangle = true, default-constructed containers).
The out-of-line member functions are not part of the repository snapshot, so
their bodies are modelled from the specification, as marked on each
definition below.
-/

set_option autoImplicit false

namespace SkSL

/-- An opaque handle standing for a pointer to an externally-owned object
(compiler service, error-handler object, fragment processor, EmitArgs bundle,
program element).  Pointer identity is all the model needs. -/
abbrev Handle := Nat

/-- DSLWriter::StackFrame from the source header: a fragment-processor
pointer paired with the EmitArgs pointer for that processor. -/
structure StackFrame where
  fProcessor : Handle
  fEmitArgs : Handle
  deriving DecidableEq, Repr

/-- Observable events of the Error Hook: either the installed handler object
was invoked with the diagnostic message, or (no handler installed) the
diagnostic was dumped and the process aborted fatally. -/
inductive ErrorEvent where
  | handlerInvoked (handler : Handle) (msg : String)
  | fatalDump (msg : String)
  deriving DecidableEq, Repr

/-- Modelled from the spec: ManglerState (the body of SkSLMangler is not in
the repository snapshot) — per-context counters keyed by requested base
name. -/
structure Mangler where
  counters : List (String × Nat)
  deriving DecidableEq, Repr

/-- Modelled from the spec: an SkSL::Modifiers value (the IR headers are not
in the repository snapshot) — an immutable qualifier set; two fields stand
for its flag bits and layout data, compared structurally. -/
structure SkModifiers where
  flags : Nat
  layout : Nat
  deriving DecidableEq, Repr

/-- The per-thread DSLWriter state.  Fields fSettings..fStack mirror the
private fields of the C++ class (fModifiersPool models the modifier interning
pool the spec attaches to the BuildContext).  errorLog and fTerminated record
the observable effects of the Error Hook: every reported error is appended to
errorLog, and fTerminated is set when the fatal default path runs. -/
structure DSLWriter where
  fSettings : Nat
  fCompiler : Handle
  fProgramElements : List Handle
  fErrorHandler : Option Handle
  fMangle : Bool
  fMangler : Mangler
  fStack : List StackFrame
  fModifiersPool : List SkModifiers
  errorLog : List ErrorEvent
  fTerminated : Bool
  deriving DecidableEq, Repr

/-- A freshly constructed DSLWriter(compiler): the in-class initializers of
the source header give fErrorHandler = nullptr and fMangle = true; the
containers are default-constructed (empty). -/
def DSLWriter.init (compiler : Handle) : DSLWriter :=
  { fSettings := 0
    fCompiler := compiler
    fProgramElements := []
    fErrorHandler := none
    fMangle := true
    fMangler := ⟨[]⟩
    fStack := []
    fModifiersPool := []
    errorLog := []
    fTerminated := false }

/-- The event a single ReportError produces, as a function of the installed
handler. -/
def reportEvent (handler : Option Handle) (msg : String) : ErrorEvent :=
  match handler with
  | some h => ErrorEvent.handlerInvoked h msg
  | none => ErrorEvent.fatalDump msg

/-- Modelled from the spec: DSLWriter::ReportError (body not in the
repository snapshot; the header documents it) — notifies the installed
ErrorHandler if any; with a null handler the diagnostic is dumped and a
fatal exception is generated (modelled by fTerminated := true). -/
def ReportError (msg : String) (s : DSLWriter) : DSLWriter :=
  match s.fErrorHandler with
  | some h => { s with errorLog := s.errorLog ++ [ErrorEvent.handlerInvoked h msg] }
  | none => { s with errorLog := s.errorLog ++ [ErrorEvent.fatalDump msg], fTerminated := true }

/-- DSLWriter::SetErrorHandler, inline in the source header:
Instance().fErrorHandler = errorHandler. -/
def SetErrorHandler (errorHandler : Option Handle) (s : DSLWriter) : DSLWriter :=
  { s with fErrorHandler := errorHandler }

/-- DSLWriter::ManglingEnabled, inline in the source header:
return Instance().fMangle. -/
def ManglingEnabled (s : DSLWriter) : Bool :=
  s.fMangle

/-- DSLWriter::CurrentProcessor, inline in the source header: asserts that
the stack is non-empty (fatal otherwise, modelled as none) and returns the
top frame's processor. -/
def CurrentProcessor (s : DSLWriter) : Option Handle :=
  match s.fStack with
  | [] => none
  | f :: _ => some f.fProcessor

/-- DSLWriter::CurrentEmitArgs, inline in the source header: asserts that
the stack is non-empty (fatal otherwise, modelled as none) and returns the
top frame's EmitArgs. -/
def CurrentEmitArgs (s : DSLWriter) : Option Handle :=
  match s.fStack with
  | [] => none
  | f :: _ => some f.fEmitArgs

/-- Modelled from the spec: DSLWriter::StartFragmentProcessor (body not in
the repository snapshot; the header documents it) — pushes a new
processor / emitArgs pair onto the stack. -/
def StartFragmentProcessor (processor emitArgs : Handle) (s : DSLWriter) : DSLWriter :=
  { s with fStack := ⟨processor, emitArgs⟩ :: s.fStack }

/-- Modelled from the spec: DSLWriter::EndFragmentProcessor (body not in the
repository snapshot; the header documents it) — pops the top
processor / emitArgs pair. -/
def EndFragmentProcessor (s : DSLWriter) : DSLWriter :=
  { s with fStack := s.fStack.tail }

/-- The thread-local slot holding the current thread's DSLWriter, none when
no build session has been established on the thread. -/
structure ThreadLocal where
  fInstance : Option DSLWriter
  deriving DecidableEq, Repr

/-- Modelled from the spec: DSLWriter::Instance (body not in the repository
snapshot) — returns the calling thread's current DSLWriter; none models the
fatal path taken when no instance was established. -/
def Instance (t : ThreadLocal) : Option DSLWriter :=
  t.fInstance

/-- Modelled from the spec: DSLWriter::SetInstance (body not in the
repository snapshot; the header declares it void) — installs the given
instance as current for the calling thread.  The returned Unit mirrors the
void return type of the source declaration: the previous instance is
discarded, not returned. -/
def SetInstance (inst : Option DSLWriter) (_t : ThreadLocal) : Unit × ThreadLocal :=
  ((), ⟨inst⟩)

/-- Looks a base name up in the mangler's counter map. -/
def lookupCounter : List (String × Nat) → String → Option Nat
  | [], _ => none
  | (k, v) :: rest, key => if k = key then some v else lookupCounter rest key

/-- Replaces the counter stored for a base name already in the map. -/
def setCounter : List (String × Nat) → String → Nat → List (String × Nat)
  | [], _, _ => []
  | (k, v) :: rest, key, c =>
    if k = key then (k, c) :: rest else (k, v) :: setCounter rest key c

/-- Little-endian decimal digits of a natural number, with explicit fuel so
that the definition is structurally recursive. -/
def natDigitsGo : Nat → Nat → List Nat
  | 0, _ => []
  | fuel + 1, n => if n = 0 then [] else n % 10 :: natDigitsGo fuel (n / 10)

/-- Little-endian decimal digits of a natural number. -/
def natDigits (n : Nat) : List Nat :=
  natDigitsGo n n

/-- The decimal digit characters. -/
def digitChar : Nat → Char
  | 0 => '0'
  | 1 => '1'
  | 2 => '2'
  | 3 => '3'
  | 4 => '4'
  | 5 => '5'
  | 6 => '6'
  | 7 => '7'
  | 8 => '8'
  | 9 => '9'
  | _ => '*'

/-- Inverse of digitChar on the decimal digits. -/
def charDigit : Char → Nat
  | '1' => 1
  | '2' => 2
  | '3' => 3
  | '4' => 4
  | '5' => 5
  | '6' => 6
  | '7' => 7
  | '8' => 8
  | '9' => 9
  | _ => 0

/-- Decimal rendering of a natural number. -/
def natStr (n : Nat) : String :=
  String.mk ((natDigits n).reverse.map digitChar)

/-- A mangled name: the base name suffixed with the separator and the counter
value. -/
def mangledName (base : String) (c : Nat) : String :=
  base ++ "_" ++ natStr c

/-- Modelled from the spec: Mangler::uniqueName (SkSLMangler is not in the
repository snapshot) — if the base name has not been seen, return it
unchanged and record a usage count of zero; otherwise increment the counter
and return the base name suffixed with the separator and the counter
value. -/
def Mangler.uniqueName (m : Mangler) (base : String) : Mangler × String :=
  match lookupCounter m.counters base with
  | none => (⟨(base, 0) :: m.counters⟩, base)
  | some c => (⟨setCounter m.counters base (c + 1)⟩, mangledName base (c + 1))

/-- Modelled from the spec: DSLWriter::Name (body not in the repository
snapshot; the header documents it) — returns the (possibly mangled) final
name for an entity with the given raw name: the raw name itself when
mangling is disabled, otherwise the Mangler's unique name. -/
def Name (name : String) (s : DSLWriter) : DSLWriter × String :=
  if ManglingEnabled s then
    ({ s with fMangler := (s.fMangler.uniqueName name).1 },
      (s.fMangler.uniqueName name).2)
  else (s, name)

/-- Position of the first structurally-equal entry in the modifier pool;
pool positions model the canonical pointers handed out. -/
def poolIndexOf : List SkModifiers → SkModifiers → Option Nat
  | [], _ => none
  | x :: xs, v => if x = v then some 0 else (poolIndexOf xs v).map (· + 1)

/-- Modelled from the spec: DSLWriter::Modifiers (body not in the repository
snapshot; the header documents it) — looks the value up in the pool by
structural equality and returns the existing canonical instance if found,
otherwise appends the value as a new canonical instance; the returned pool
position models the returned pointer. -/
def Modifiers (modifiers : SkModifiers) (s : DSLWriter) : DSLWriter × Nat :=
  match poolIndexOf s.fModifiersPool modifiers with
  | some i => (s, i)
  | none =>
    ({ s with fModifiersPool := s.fModifiersPool ++ [modifiers] },
      s.fModifiersPool.length)

/-- Modelled from the spec: the scalar types the conversion pipeline needs
(the SkSL type headers are not in the repository snapshot). -/
inductive Typ where
  | tInt
  | tFloat
  | tBool
  deriving DecidableEq, Repr

/-- Modelled from the spec: the binary operator tokens the conversion
pipeline needs. -/
inductive Operator where
  | plus
  | minus
  | star
  | slash
  | logicalAnd
  | logicalOr
  deriving DecidableEq, Repr

/-- Modelled from the spec: IR expressions (the SkSL IR headers are not in
the repository snapshot).  poison is the distinguished sentinel
error-expression substituted for every failed conversion; float payloads are
kept opaque as integers since their value is never inspected. -/
inductive Expr where
  | intLit (v : Int)
  | floatLit (v : Int)
  | boolLit (b : Bool)
  | binary (op : Operator) (left : Expr) (right : Expr) (ty : Typ)
  | coerced (e : Expr) (ty : Typ)
  | poison
  deriving DecidableEq, Repr

/-- Static type of an expression; the sentinel has none. -/
def exprType : Expr → Option Typ
  | Expr.intLit _ => some Typ.tInt
  | Expr.floatLit _ => some Typ.tFloat
  | Expr.boolLit _ => some Typ.tBool
  | Expr.binary _ _ _ t => some t
  | Expr.coerced _ t => some t
  | Expr.poison => none

/-- Modelled from the spec: the implicit-coercion relation — a type coerces
to itself, and int widens implicitly to float. -/
def coercible : Typ → Typ → Bool
  | Typ.tInt, Typ.tInt => true
  | Typ.tInt, Typ.tFloat => true
  | Typ.tFloat, Typ.tFloat => true
  | Typ.tBool, Typ.tBool => true
  | _, _ => false

/-- Modelled from the spec: the common type two binary operands are brought
to — equal types stay, otherwise the wider type both coerce towards. -/
def commonType (a b : Typ) : Option Typ :=
  if a = b then some a
  else if coercible a b then some b
  else if coercible b a then some a
  else none

/-- Modelled from the spec: the type system's operator table — arithmetic
operators are defined on the numeric types, logical operators on bool. -/
def binaryOpDefined : Operator → Typ → Bool
  | Operator.plus, Typ.tInt => true
  | Operator.plus, Typ.tFloat => true
  | Operator.minus, Typ.tInt => true
  | Operator.minus, Typ.tFloat => true
  | Operator.star, Typ.tInt => true
  | Operator.star, Typ.tFloat => true
  | Operator.slash, Typ.tInt => true
  | Operator.slash, Typ.tFloat => true
  | Operator.logicalAnd, Typ.tBool => true
  | Operator.logicalOr, Typ.tBool => true
  | _, _ => false

/-- Diagnostic for a null expression reaching Check. -/
def nullExprMsg : String :=
  "null expression"

/-- Diagnostic for a failed implicit coercion. -/
def typeMismatchMsg : String :=
  "type mismatch"

/-- Diagnostic for an operator undefined on the operand types. -/
def unsupportedOpMsg : String :=
  "unsupported operator for operand types"

/-- DSLWriter::Check, modelled from the source header's documentation:
reports an error if the argument is null and returns its argument
unmodified otherwise; a null argument yields the poison sentinel. -/
def Check (expr : Option Expr) (s : DSLWriter) : DSLWriter × Expr :=
  match expr with
  | some e => (s, e)
  | none => (ReportError nullExprMsg s, Expr.poison)

/-- Modelled from the spec: DSLWriter::Coerce (body not in the repository
snapshot) — inserts the minimal implicit conversion needed to reach the
target type; a type mismatch is reported and yields the sentinel; a poison
operand propagates silently. -/
def Coerce (e : Expr) (ty : Typ) (s : DSLWriter) : DSLWriter × Expr :=
  match exprType e with
  | none => (s, Expr.poison)
  | some et =>
    if et = ty then (s, e)
    else if coercible et ty then (s, Expr.coerced e ty)
    else (ReportError typeMismatchMsg s, Expr.poison)

/-- Modelled from the spec: DSLWriter::ConvertBinary (body not in the
repository snapshot) — routes the operands through Check, validates the
operator against the operand types per the operator table, performs the
required implicit coercions and builds the typed binary node; an invalid
operator/type combination is reported and yields the sentinel; a poison
operand propagates silently. -/
def ConvertBinary (left : Option Expr) (op : Operator) (right : Option Expr)
    (s : DSLWriter) : DSLWriter × Expr :=
  let p1 := Check left s
  let p2 := Check right p1.1
  match exprType p1.2, exprType p2.2 with
  | some lt, some rt =>
    match commonType lt rt with
    | some ty =>
      if binaryOpDefined op ty then
        let q1 := Coerce p1.2 ty p2.1
        let q2 := Coerce p2.2 ty q1.1
        (q2.1, Expr.binary op q1.2 q2.2 ty)
      else (ReportError unsupportedOpMsg p2.1, Expr.poison)
    | none => (ReportError typeMismatchMsg p2.1, Expr.poison)
  | _, _ => (p2.1, Expr.poison)

/-- Runs a sequence of Name requests against the writer, recording each
(request, output) pair in order. -/
def nameSeq : DSLWriter → List String → List (String × String)
  | _, [] => []
  | s, r :: rs => (r, (Name r s).2) :: nameSeq (Name r s).1 rs

/-- The outputs returned for the requests of one particular base name, in
order. -/
def outputsFor (n : String) : List (String × String) → List String
  | [] => []
  | (r, out) :: rest =>
    if r = n then out :: outputsFor n rest else outputsFor n rest

/-- How many times a base name occurs in a request sequence. -/
def countReq (n : String) : List String → Nat
  | [] => 0
  | r :: rs => if r = n then countReq n rs + 1 else countReq n rs

/-- The mangled outputs produced for a base name by k further requests when
its stored counter is c. -/
def contOutputs : String → Nat → Nat → List String
  | _, _, 0 => []
  | n, c, k + 1 => mangledName n (c + 1) :: contOutputs n (c + 1) k

/-- The outputs produced for base name n by k requests, as a function of the
counter state the mangler holds for n. -/
def expectedOutputs (n : String) : Option Nat → Nat → List String
  | some c, k => contOutputs n c k
  | none, 0 => []
  | none, k + 1 => n :: contOutputs n 0 k

/-- Runs a sequence of Modifiers requests against the writer, keeping the
final state. -/
def runModifiers : List SkModifiers → DSLWriter → DSLWriter
  | [], s => s
  | v :: vs, s => runModifiers vs (Modifiers v s).1

lemma reportError_errorLog (msg : String) (s : DSLWriter) :
    (ReportError msg s).errorLog = s.errorLog ++ [reportEvent s.fErrorHandler msg] := by
  cases h : s.fErrorHandler <;> simp [ReportError, reportEvent, h]

/-- C1: Check on a non-null expression returns it unchanged; Check on null
reports exactly one error through the Error Hook and returns the non-null
poison sentinel, which subsequent pipeline calls (Check, Coerce,
ConvertBinary) accept totally and silently, reporting no further error. -/
theorem check_identity_and_null_sentinel (e : Expr) (s t u w : DSLWriter)
    (ty : Typ) (op : Operator) (v : Int) :
    Check (some e) s = (s, e) ∧
    (Check none s).2 = Expr.poison ∧
    (Check none s).1.errorLog = s.errorLog ++ [reportEvent s.fErrorHandler nullExprMsg] ∧
    Check (some (Check none s).2) t = (t, Expr.poison) ∧
    Coerce (Check none s).2 ty u = (u, Expr.poison) ∧
    ConvertBinary (some (Check none s).2) op (some (Expr.intLit v)) w = (w, Expr.poison) :=
  ⟨rfl, rfl, reportError_errorLog nullExprMsg s, rfl, rfl, rfl⟩

/-- C3: the build-target stack is LIFO — after Start(A,a); Start(B,b) the
current processor/emitArgs are B's; after one End they are A's; after a
second End the stack is empty, and reading the current processor or
emitArgs on the empty stack takes the fatal assertion path (modelled as
none). -/
theorem fragmentProcessorStack_lifo (s : DSLWriter) (pA aA pB aB : Handle)
    (hs : s.fStack = []) :
    CurrentProcessor (StartFragmentProcessor pB aB (StartFragmentProcessor pA aA s)) = some pB ∧
    CurrentEmitArgs (StartFragmentProcessor pB aB (StartFragmentProcessor pA aA s)) = some aB ∧
    CurrentProcessor (EndFragmentProcessor (StartFragmentProcessor pB aB (StartFragmentProcessor pA aA s))) = some pA ∧
    CurrentEmitArgs (EndFragmentProcessor (StartFragmentProcessor pB aB (StartFragmentProcessor pA aA s))) = some aA ∧
    (EndFragmentProcessor (EndFragmentProcessor (StartFragmentProcessor pB aB (StartFragmentProcessor pA aA s)))).fStack = [] ∧
    CurrentProcessor (EndFragmentProcessor (EndFragmentProcessor (StartFragmentProcessor pB aB (StartFragmentProcessor pA aA s)))) = none ∧
    CurrentEmitArgs (EndFragmentProcessor (EndFragmentProcessor (StartFragmentProcessor pB aB (StartFragmentProcessor pA aA s)))) = none := by
  refine ⟨rfl, rfl, rfl, rfl, ?_, ?_, ?_⟩ <;>
    simp [CurrentProcessor, CurrentEmitArgs, StartFragmentProcessor,
      EndFragmentProcessor, hs]

theorem fragmentProcessorStack_lifo_witness :
    (DSLWriter.init 0).fStack = [] ∧
    CurrentProcessor (StartFragmentProcessor 3 4 (StartFragmentProcessor 1 2 (DSLWriter.init 0))) = some 3 ∧
    CurrentEmitArgs (StartFragmentProcessor 3 4 (StartFragmentProcessor 1 2 (DSLWriter.init 0))) = some 4 ∧
    CurrentProcessor (EndFragmentProcessor (StartFragmentProcessor 3 4 (StartFragmentProcessor 1 2 (DSLWriter.init 0)))) = some 1 ∧
    CurrentEmitArgs (EndFragmentProcessor (StartFragmentProcessor 3 4 (StartFragmentProcessor 1 2 (DSLWriter.init 0)))) = some 2 ∧
    (EndFragmentProcessor (EndFragmentProcessor (StartFragmentProcessor 3 4 (StartFragmentProcessor 1 2 (DSLWriter.init 0))))).fStack = [] ∧
    CurrentProcessor (EndFragmentProcessor (EndFragmentProcessor (StartFragmentProcessor 3 4 (StartFragmentProcessor 1 2 (DSLWriter.init 0))))) = none ∧
    CurrentEmitArgs (EndFragmentProcessor (EndFragmentProcessor (StartFragmentProcessor 3 4 (StartFragmentProcessor 1 2 (DSLWriter.init 0))))) = none :=
  ⟨rfl, fragmentProcessorStack_lifo (DSLWriter.init 0) 1 2 3 4 rfl⟩

/-- C4: ReportError invokes the installed handler exactly once with the
diagnostic message and does not terminate the process; with no handler
installed it dumps the diagnostic and terminates fatally. -/
theorem reportError_handler_or_fatal (msg : String) (s : DSLWriter) :
    (∀ h, s.fErrorHandler = some h →
      (ReportError msg s).errorLog = s.errorLog ++ [ErrorEvent.handlerInvoked h msg] ∧
      (ReportError msg s).fTerminated = s.fTerminated) ∧
    (s.fErrorHandler = none →
      (ReportError msg s).errorLog = s.errorLog ++ [ErrorEvent.fatalDump msg] ∧
      (ReportError msg s).fTerminated = true) := by
  constructor
  · intro h hh
    simp [ReportError, hh]
  · intro hh
    simp [ReportError, hh]

theorem reportError_handler_or_fatal_witness :
    ((ReportError "m" (SetErrorHandler (some 7) (DSLWriter.init 0))).errorLog =
        (SetErrorHandler (some 7) (DSLWriter.init 0)).errorLog ++ [ErrorEvent.handlerInvoked 7 "m"] ∧
      (ReportError "m" (SetErrorHandler (some 7) (DSLWriter.init 0))).fTerminated =
        (SetErrorHandler (some 7) (DSLWriter.init 0)).fTerminated) ∧
    ((ReportError "m" (DSLWriter.init 0)).errorLog =
        (DSLWriter.init 0).errorLog ++ [ErrorEvent.fatalDump "m"] ∧
      (ReportError "m" (DSLWriter.init 0)).fTerminated = true) :=
  ⟨(reportError_handler_or_fatal "m" (SetErrorHandler (some 7) (DSLWriter.init 0))).1 7 rfl,
    (reportError_handler_or_fatal "m" (DSLWriter.init 0)).2 rfl⟩

/-- C6: converting int + float inserts an implicit widening coercion on the
int operand and yields a binary node of the wider float type; converting
bool + bool reports exactly one unsupported-operator error through the
Error Hook and yields the poison sentinel. -/
theorem convertBinary_widening_and_unsupported (a b : Int) (x y : Bool)
    (s t : DSLWriter) :
    ConvertBinary (some (Expr.intLit a)) Operator.plus (some (Expr.floatLit b)) s =
      (s, Expr.binary Operator.plus (Expr.coerced (Expr.intLit a) Typ.tFloat)
        (Expr.floatLit b) Typ.tFloat) ∧
    exprType (ConvertBinary (some (Expr.intLit a)) Operator.plus
      (some (Expr.floatLit b)) s).2 = some Typ.tFloat ∧
    (ConvertBinary (some (Expr.boolLit x)) Operator.plus (some (Expr.boolLit y)) t).2 =
      Expr.poison ∧
    (ConvertBinary (some (Expr.boolLit x)) Operator.plus (some (Expr.boolLit y)) t).1.errorLog =
      t.errorLog ++ [reportEvent t.fErrorHandler unsupportedOpMsg] :=
  ⟨rfl, rfl, rfl, reportError_errorLog unsupportedOpMsg t⟩

/-- C7: with mangling disabled, Name returns the raw name unchanged and
leaves the whole writer state (the Mangler included) untouched; with
mangling enabled it returns the Mangler's mangled variant and stores the
updated Mangler state. -/
theorem name_identity_or_mangled (name : String) (s : DSLWriter) :
    (s.fMangle = false → Name name s = (s, name)) ∧
    (s.fMangle = true → Name name s =
      ({ s with fMangler := (s.fMangler.uniqueName name).1 },
        (s.fMangler.uniqueName name).2)) := by
  constructor
  · intro hd
    simp [Name, ManglingEnabled, hd]
  · intro hd
    simp [Name, ManglingEnabled, hd]

theorem name_identity_or_mangled_witness :
    (Name "foo" { DSLWriter.init 0 with fMangle := false } =
      ({ DSLWriter.init 0 with fMangle := false }, "foo")) ∧
    (Name "foo" (DSLWriter.init 0) =
      ({ DSLWriter.init 0 with
          fMangler := ((DSLWriter.init 0).fMangler.uniqueName "foo").1 },
        ((DSLWriter.init 0).fMangler.uniqueName "foo").2)) :=
  ⟨(name_identity_or_mangled "foo" { DSLWriter.init 0 with fMangle := false }).1 rfl,
    (name_identity_or_mangled "foo" (DSLWriter.init 0)).2 rfl⟩

/-- C8 counterexample: SetInstance is declared void in the source header, so
its return value carries no information about the previously-current
BuildContext — it is identical for two thread states whose previous
contexts differ, hence it cannot return the previous context to the
caller. -/
theorem setInstance_returns_nothing :
    (SetInstance (some (DSLWriter.init 1)) ⟨some (DSLWriter.init 0)⟩).1 =
      (SetInstance (some (DSLWriter.init 1)) ⟨none⟩).1 ∧
    (⟨some (DSLWriter.init 0)⟩ : ThreadLocal) ≠ (⟨none⟩ : ThreadLocal) :=
  ⟨rfl, by simp⟩

/-- C8 amended: SetInstance(ctx) installs ctx as the calling thread's
current BuildContext, discarding (not returning) the previous one; after
SetInstance(ctx), Instance() on the thread returns ctx, and Instance()
takes the fatal path (modelled as none) when no BuildContext has been
established. -/
theorem setInstance_installs (ctx : Option DSLWriter) (t : ThreadLocal) :
    Instance (SetInstance ctx t).2 = ctx ∧
    (SetInstance ctx t).1 = () ∧
    Instance ⟨none⟩ = none :=
  ⟨rfl, rfl, rfl⟩

/-- C9: a freshly constructed DSLWriter starts with mangling enabled, no
error handler installed (so the first error reported before any
SetErrorHandler call takes the fatal default path), an empty
program-element list and an empty fragment-processor stack. -/
theorem dslWriter_init_defaults (c : Handle) (msg : String) :
    (DSLWriter.init c).fMangle = true ∧
    ManglingEnabled (DSLWriter.init c) = true ∧
    (DSLWriter.init c).fErrorHandler = none ∧
    (DSLWriter.init c).fProgramElements = [] ∧
    (DSLWriter.init c).fStack = [] ∧
    (ReportError msg (DSLWriter.init c)).fTerminated = true ∧
    (ReportError msg (DSLWriter.init c)).errorLog = [ErrorEvent.fatalDump msg] :=
  ⟨rfl, rfl, rfl, rfl, rfl, rfl, rfl⟩

/-- C10: SetErrorHandler only writes the error-handler field — the
program-element list, mangling flag, Mangler state, fragment-processor
stack, modifier pool and every other component of the state are unchanged —
and passing null clears the handler so that a subsequent ReportError takes
the fatal default path again. -/
theorem setErrorHandler_frame_effect (h : Option Handle) (msg : String)
    (s : DSLWriter) :
    (SetErrorHandler h s).fErrorHandler = h ∧
    (SetErrorHandler h s).fProgramElements = s.fProgramElements ∧
    (SetErrorHandler h s).fMangle = s.fMangle ∧
    (SetErrorHandler h s).fMangler = s.fMangler ∧
    (SetErrorHandler h s).fStack = s.fStack ∧
    (SetErrorHandler h s).fModifiersPool = s.fModifiersPool ∧
    (SetErrorHandler h s).errorLog = s.errorLog ∧
    (SetErrorHandler h s).fTerminated = s.fTerminated ∧
    (SetErrorHandler h s).fCompiler = s.fCompiler ∧
    (SetErrorHandler h s).fSettings = s.fSettings ∧
    (SetErrorHandler none s).fErrorHandler = none ∧
    (ReportError msg (SetErrorHandler none s)).fTerminated = true :=
  ⟨rfl, rfl, rfl, rfl, rfl, rfl, rfl, rfl, rfl, rfl, rfl, rfl⟩

lemma poolIndexOf_append_of_found (v : SkModifiers) :
    ∀ (l t : List SkModifiers) (i : Nat),
      poolIndexOf l v = some i → poolIndexOf (l ++ t) v = some i := by
  intro l
  induction l with
  | nil =>
    intro t i h
    simp [poolIndexOf] at h
  | cons x xs ih =>
    intro t i h
    by_cases hx : x = v
    · simp [poolIndexOf, hx] at h ⊢
      exact h
    · simp [poolIndexOf, hx] at h ⊢
      obtain ⟨j, hj, hij⟩ := h
      exact ⟨j, ih t j hj, hij⟩

lemma poolIndexOf_append_self :
    ∀ (l : List SkModifiers) (v : SkModifiers),
      poolIndexOf l v = none → poolIndexOf (l ++ [v]) v = some l.length := by
  intro l
  induction l with
  | nil =>
    intro v _
    simp [poolIndexOf]
  | cons x xs ih =>
    intro v h
    by_cases hx : x = v
    · simp [poolIndexOf, hx] at h
    · simp [poolIndexOf, hx] at h ⊢
      exact ih v h

lemma modifiers_of_found (v : SkModifiers) (s : DSLWriter) (i : Nat)
    (h : poolIndexOf s.fModifiersPool v = some i) :
    Modifiers v s = (s, i) := by
  simp [Modifiers, h]

lemma modifiers_found (v : SkModifiers) (s : DSLWriter) :
    poolIndexOf (Modifiers v s).1.fModifiersPool v = some (Modifiers v s).2 := by
  cases h : poolIndexOf s.fModifiersPool v with
  | some i => simp [Modifiers, h]
  | none => simp [Modifiers, h, poolIndexOf_append_self s.fModifiersPool v h]

lemma modifiers_preserves_found (v w : SkModifiers) (s : DSLWriter) (i : Nat)
    (h : poolIndexOf s.fModifiersPool v = some i) :
    poolIndexOf (Modifiers w s).1.fModifiersPool v = some i := by
  cases hw : poolIndexOf s.fModifiersPool w with
  | some j => simpa [Modifiers, hw] using h
  | none =>
    have := poolIndexOf_append_of_found v s.fModifiersPool [w] i h
    simpa [Modifiers, hw] using this

lemma runModifiers_preserves_found (v : SkModifiers) (i : Nat) :
    ∀ (vs : List SkModifiers) (s : DSLWriter),
      poolIndexOf s.fModifiersPool v = some i →
      poolIndexOf (runModifiers vs s).fModifiersPool v = some i := by
  intro vs
  induction vs with
  | nil =>
    intro s h
    exact h
  | cons w ws ih =>
    intro s h
    exact ih (Modifiers w s).1 (modifiers_preserves_found v w s i h)

lemma modifiers_pool_grows (v : SkModifiers) (s : DSLWriter) :
    s.fModifiersPool <+: (Modifiers v s).1.fModifiersPool := by
  cases h : poolIndexOf s.fModifiersPool v with
  | some i =>
    simp [Modifiers, h]
  | none =>
    have : (Modifiers v s).1.fModifiersPool = s.fModifiersPool ++ [v] := by
      simp [Modifiers, h]
    rw [this]
    exact ⟨[v], rfl⟩

lemma runModifiers_pool_grows :
    ∀ (vs : List SkModifiers) (s : DSLWriter),
      s.fModifiersPool <+: (runModifiers vs s).fModifiersPool := by
  intro vs
  induction vs with
  | nil =>
    intro s
    exact List.prefix_refl _
  | cons w ws ih =>
    intro s
    exact (modifiers_pool_grows w s).trans (ih (Modifiers w s).1)

/-- C5: two structurally-equal modifier values requested within one session
— with arbitrary other requests in between — yield the same canonical pool
position (the model of pointer identity); the repeated request leaves the
pool untouched, and the pool only ever grows (each request extends it as a
prefix), so a canonical instance once handed out is never evicted or
replaced. -/
theorem modifiers_interning (a b : SkModifiers) (s : DSLWriter)
    (vs : List SkModifiers) (hab : a = b) :
    (Modifiers b (runModifiers vs (Modifiers a s).1)).2 = (Modifiers a s).2 ∧
    (Modifiers b (runModifiers vs (Modifiers a s).1)).1 =
      runModifiers vs (Modifiers a s).1 ∧
    s.fModifiersPool <+: (Modifiers a s).1.fModifiersPool ∧
    (Modifiers a s).1.fModifiersPool <+:
      (runModifiers vs (Modifiers a s).1).fModifiersPool := by
  subst hab
  have h1 := modifiers_found a s
  have h2 := runModifiers_preserves_found a (Modifiers a s).2 vs (Modifiers a s).1 h1
  have h3 := modifiers_of_found a (runModifiers vs (Modifiers a s).1) (Modifiers a s).2 h2
  exact ⟨by rw [h3], by rw [h3],
    modifiers_pool_grows a s, runModifiers_pool_grows vs (Modifiers a s).1⟩

theorem modifiers_interning_witness :
    ((⟨1, 2⟩ : SkModifiers) = ⟨1, 2⟩) ∧
    ((Modifiers ⟨1, 2⟩ (runModifiers [⟨3, 4⟩, ⟨1, 2⟩]
        (Modifiers ⟨1, 2⟩ (DSLWriter.init 0)).1)).2 =
      (Modifiers ⟨1, 2⟩ (DSLWriter.init 0)).2 ∧
    (Modifiers ⟨1, 2⟩ (runModifiers [⟨3, 4⟩, ⟨1, 2⟩]
        (Modifiers ⟨1, 2⟩ (DSLWriter.init 0)).1)).1 =
      runModifiers [⟨3, 4⟩, ⟨1, 2⟩] (Modifiers ⟨1, 2⟩ (DSLWriter.init 0)).1 ∧
    (DSLWriter.init 0).fModifiersPool <+:
      (Modifiers ⟨1, 2⟩ (DSLWriter.init 0)).1.fModifiersPool ∧
    (Modifiers ⟨1, 2⟩ (DSLWriter.init 0)).1.fModifiersPool <+:
      (runModifiers [⟨3, 4⟩, ⟨1, 2⟩]
        (Modifiers ⟨1, 2⟩ (DSLWriter.init 0)).1).fModifiersPool) :=
  ⟨rfl, modifiers_interning ⟨1, 2⟩ ⟨1, 2⟩ (DSLWriter.init 0) [⟨3, 4⟩, ⟨1, 2⟩] rfl⟩

lemma lookup_setCounter_self :
    ∀ (l : List (String × Nat)) (key : String) (c v : Nat),
      lookupCounter l key = some c →
      lookupCounter (setCounter l key v) key = some v := by
  intro l
  induction l with
  | nil =>
    intro key c v h
    simp [lookupCounter] at h
  | cons p rest ih =>
    intro key c v h
    obtain ⟨k, w⟩ := p
    by_cases hk : k = key
    · simp [lookupCounter, setCounter, hk]
    · simp [lookupCounter, setCounter, hk] at h ⊢
      exact ih key c v h

lemma lookup_setCounter_other :
    ∀ (l : List (String × Nat)) (key n : String) (v : Nat), key ≠ n →
      lookupCounter (setCounter l key v) n = lookupCounter l n := by
  intro l
  induction l with
  | nil =>
    intro key n v _
    simp [setCounter]
  | cons p rest ih =>
    intro key n v hne
    obtain ⟨k, w⟩ := p
    by_cases hk : k = key
    · subst hk
      simp [setCounter, lookupCounter, hne]
    · simp [setCounter, hk, lookupCounter]
      by_cases hkn : k = n
      · simp [hkn]
      · simp [hkn]
        exact ih key n v hne

lemma name_state_fMangle (r : String) (s : DSLWriter) :
    (Name r s).1.fMangle = s.fMangle := by
  cases h : s.fMangle <;> simp [Name, ManglingEnabled, h]

lemma name_fresh (n : String) (s : DSLWriter) (hm : s.fMangle = true)
    (h : lookupCounter s.fMangler.counters n = none) :
    (Name n s).2 = n ∧
    lookupCounter (Name n s).1.fMangler.counters n = some 0 := by
  constructor
  · simp [Name, ManglingEnabled, hm, Mangler.uniqueName, h]
  · simp [Name, ManglingEnabled, hm, Mangler.uniqueName, h, lookupCounter]

lemma name_seen (n : String) (s : DSLWriter) (hm : s.fMangle = true) (c : Nat)
    (h : lookupCounter s.fMangler.counters n = some c) :
    (Name n s).2 = mangledName n (c + 1) ∧
    lookupCounter (Name n s).1.fMangler.counters n = some (c + 1) := by
  constructor
  · simp [Name, ManglingEnabled, hm, Mangler.uniqueName, h]
  · simp [Name, ManglingEnabled, hm, Mangler.uniqueName, h]
    exact lookup_setCounter_self s.fMangler.counters n c (c + 1) h

lemma name_counter_other (r n : String) (hne : r ≠ n) (s : DSLWriter) :
    lookupCounter (Name r s).1.fMangler.counters n =
      lookupCounter s.fMangler.counters n := by
  cases hm : s.fMangle with
  | false => simp [Name, ManglingEnabled, hm]
  | true =>
    cases h : lookupCounter s.fMangler.counters r with
    | none =>
      simp [Name, ManglingEnabled, hm, Mangler.uniqueName, h, lookupCounter, hne]
    | some c =>
      simp [Name, ManglingEnabled, hm, Mangler.uniqueName, h]
      exact lookup_setCounter_other s.fMangler.counters r n (c + 1) hne

lemma outputsFor_nameSeq (n : String) :
    ∀ (rs : List String) (s : DSLWriter), s.fMangle = true →
      outputsFor n (nameSeq s rs) =
        expectedOutputs n (lookupCounter s.fMangler.counters n) (countReq n rs) := by
  intro rs
  induction rs with
  | nil =>
    intro s _
    cases h : lookupCounter s.fMangler.counters n <;>
      simp [nameSeq, outputsFor, countReq, expectedOutputs, contOutputs]
  | cons r rs ih =>
    intro s hm
    have hm2 : (Name r s).1.fMangle = true := by
      rw [name_state_fMangle]
      exact hm
    by_cases hr : r = n
    · subst hr
      cases h : lookupCounter s.fMangler.counters r with
      | none =>
        obtain ⟨hout, hcnt⟩ := name_fresh r s hm h
        simp only [nameSeq, outputsFor, countReq, if_pos rfl]
        rw [hout, ih (Name r s).1 hm2, hcnt]
        simp [expectedOutputs]
      | some c =>
        obtain ⟨hout, hcnt⟩ := name_seen r s hm c h
        simp only [nameSeq, outputsFor, countReq, if_pos rfl]
        rw [hout, ih (Name r s).1 hm2, hcnt]
        simp [expectedOutputs, contOutputs]
    · simp only [nameSeq, outputsFor, countReq, if_neg hr]
      rw [ih (Name r s).1 hm2, name_counter_other r n hr s]

/-- Value of a little-endian decimal digit list, the inverse of
natDigits. -/
def fromDigits : List Nat → Nat
  | [] => 0
  | d :: ds => d + 10 * fromDigits ds

lemma fromDigits_natDigitsGo :
    ∀ (fuel n : Nat), n ≤ fuel → fromDigits (natDigitsGo fuel n) = n := by
  intro fuel
  induction fuel with
  | zero =>
    intro n h
    have : n = 0 := Nat.le_zero.mp h
    simp [this, natDigitsGo, fromDigits]
  | succ fuel ih =>
    intro n h
    by_cases hn : n = 0
    · simp [natDigitsGo, hn, fromDigits]
    · simp only [natDigitsGo, if_neg hn, fromDigits]
      have hdiv : n / 10 ≤ fuel := by
        have := Nat.div_lt_self (Nat.pos_of_ne_zero hn) (by norm_num : 1 < 10)
        omega
      rw [ih (n / 10) hdiv]
      omega

lemma fromDigits_natDigits (n : Nat) : fromDigits (natDigits n) = n :=
  fromDigits_natDigitsGo n n (Nat.le_refl n)

lemma natDigitsGo_lt10 :
    ∀ (fuel n d : Nat), d ∈ natDigitsGo fuel n → d < 10 := by
  intro fuel
  induction fuel with
  | zero =>
    intro n d h
    simp [natDigitsGo] at h
  | succ fuel ih =>
    intro n d h
    by_cases hn : n = 0
    · simp [natDigitsGo, hn] at h
    · simp only [natDigitsGo, if_neg hn, List.mem_cons] at h
      cases h with
      | inl h =>
        subst h
        exact Nat.mod_lt n (by norm_num)
      | inr h => exact ih (n / 10) d h

lemma charDigit_digitChar (d : Nat) (h : d < 10) :
    charDigit (digitChar d) = d := by
  interval_cases d <;> rfl

lemma map_digitChar_inj :
    ∀ (l1 l2 : List Nat), (∀ d ∈ l1, d < 10) → (∀ d ∈ l2, d < 10) →
      l1.map digitChar = l2.map digitChar → l1 = l2 := by
  intro l1
  induction l1 with
  | nil =>
    intro l2 _ _ h
    cases l2 with
    | nil => rfl
    | cons e es => simp at h
  | cons d ds ih =>
    intro l2 h1 h2 h
    cases l2 with
    | nil => simp at h
    | cons e es =>
      simp only [List.map_cons, List.cons.injEq] at h
      obtain ⟨hde, hrest⟩ := h
      have hd := h1 d (by simp)
      have he := h2 e (by simp)
      have hde2 : d = e := by
        calc d = charDigit (digitChar d) := (charDigit_digitChar d hd).symm
        _ = charDigit (digitChar e) := by rw [hde]
        _ = e := charDigit_digitChar e he
      subst hde2
      rw [ih es (fun x hx => h1 x (by simp [hx])) (fun x hx => h2 x (by simp [hx])) hrest]

lemma natStr_data_inj (a b : Nat) (h : (natStr a).data = (natStr b).data) :
    a = b := by
  have hdata : (natDigits a).reverse.map digitChar =
      (natDigits b).reverse.map digitChar := h
  have hrev : (natDigits a).reverse = (natDigits b).reverse :=
    map_digitChar_inj _ _
      (fun d hd => natDigitsGo_lt10 a a d (List.mem_reverse.mp hd))
      (fun d hd => natDigitsGo_lt10 b b d (List.mem_reverse.mp hd)) hdata
  have hdig : natDigits a = natDigits b := List.reverse_injective hrev
  have hval := congrArg fromDigits hdig
  rwa [fromDigits_natDigits, fromDigits_natDigits] at hval

lemma strAppend_data (a b : String) : (a ++ b).data = a.data ++ b.data := by
  cases a
  cases b
  rfl

lemma mangledName_data (base : String) (c : Nat) :
    (mangledName base c).data = base.data ++ '_' :: (natStr c).data := by
  simp [mangledName, strAppend_data]

lemma mangledName_ne_base (base : String) (c : Nat) :
    mangledName base c ≠ base := by
  intro h
  have hlen := congrArg (fun s => s.data.length) h
  simp [mangledName_data] at hlen

lemma mangledName_inj (base : String) (i j : Nat)
    (h : mangledName base i = mangledName base j) : i = j := by
  have hd := congrArg String.data h
  rw [mangledName_data, mangledName_data] at hd
  have h1 := List.append_cancel_left hd
  simp only [List.cons.injEq, true_and] at h1
  exact natStr_data_inj i j h1

lemma mem_contOutputs (n : String) :
    ∀ (k c : Nat) (x : String), x ∈ contOutputs n c k →
      ∃ i, c < i ∧ x = mangledName n i := by
  intro k
  induction k with
  | zero =>
    intro c x h
    simp [contOutputs] at h
  | succ k ih =>
    intro c x h
    simp only [contOutputs, List.mem_cons] at h
    cases h with
    | inl h => exact ⟨c + 1, Nat.lt_succ_self c, h⟩
    | inr h =>
      obtain ⟨i, hi, hx⟩ := ih (c + 1) x h
      exact ⟨i, by omega, hx⟩

lemma contOutputs_nodup (n : String) : ∀ (k c : Nat), (contOutputs n c k).Nodup := by
  intro k
  induction k with
  | zero =>
    intro c
    simp [contOutputs]
  | succ k ih =>
    intro c
    simp only [contOutputs, List.nodup_cons]
    refine ⟨?_, ih (c + 1)⟩
    intro hmem
    obtain ⟨i, hi, hx⟩ := mem_contOutputs n k (c + 1) _ hmem
    have := mangledName_inj n (c + 1) i hx
    omega

lemma base_not_mem_contOutputs (n : String) (k c : Nat) :
    n ∉ contOutputs n c k := by
  intro h
  obtain ⟨i, _, hx⟩ := mem_contOutputs n k c n h
  exact mangledName_ne_base n i hx.symm

lemma contOutputs_length (n : String) :
    ∀ (k c : Nat), (contOutputs n c k).length = k := by
  intro k
  induction k with
  | zero =>
    intro c
    rfl
  | succ k ih =>
    intro c
    simp [contOutputs, ih (c + 1)]

lemma expectedOutputs_nodup (n : String) (st : Option Nat) (k : Nat) :
    (expectedOutputs n st k).Nodup := by
  cases st with
  | some c => exact contOutputs_nodup n k c
  | none =>
    cases k with
    | zero => simp [expectedOutputs]
    | succ k =>
      simp only [expectedOutputs, List.nodup_cons]
      exact ⟨base_not_mem_contOutputs n k 0, contOutputs_nodup n k 0⟩

lemma expectedOutputs_length (n : String) (st : Option Nat) (k : Nat) :
    (expectedOutputs n st k).length = k := by
  cases st with
  | some c => exact contOutputs_length n k c
  | none =>
    cases k with
    | zero => rfl
    | succ k => simp [expectedOutputs, contOutputs_length n k 0]

lemma expectedOutputs_head (n : String) (k : Nat) (hk : 0 < k) :
    (expectedOutputs n none k).head? = some n := by
  cases k with
  | zero => omega
  | succ k => rfl

/-- C2: within one build session with mangling enabled, the outputs the
Name service returns for the k requests of a base name n — with requests of
other names arbitrarily interleaved — are given by an explicit function of n
and the request sequence alone (determinism); they are k pairwise-distinct
strings and the first of them is exactly n. -/
theorem mangler_unique_names (s : DSLWriter) (n : String) (rs : List String)
    (hm : s.fMangle = true) (hfresh : s.fMangler.counters = []) :
    outputsFor n (nameSeq s rs) = expectedOutputs n none (countReq n rs) ∧
    (outputsFor n (nameSeq s rs)).Nodup ∧
    (outputsFor n (nameSeq s rs)).length = countReq n rs ∧
    (0 < countReq n rs → (outputsFor n (nameSeq s rs)).head? = some n) := by
  have h0 : lookupCounter s.fMangler.counters n = none := by
    rw [hfresh]
    rfl
  have hmain := outputsFor_nameSeq n rs s hm
  rw [h0] at hmain
  refine ⟨hmain, ?_, ?_, ?_⟩
  · rw [hmain]
    exact expectedOutputs_nodup n none (countReq n rs)
  · rw [hmain]
    exact expectedOutputs_length n none (countReq n rs)
  · intro hk
    rw [hmain]
    exact expectedOutputs_head n (countReq n rs) hk

theorem mangler_unique_names_witness :
    (DSLWriter.init 0).fMangle = true ∧
    (DSLWriter.init 0).fMangler.counters = [] ∧
    (outputsFor "x" (nameSeq (DSLWriter.init 0) ["x", "y", "x"]) =
        expectedOutputs "x" none (countReq "x" ["x", "y", "x"]) ∧
      (outputsFor "x" (nameSeq (DSLWriter.init 0) ["x", "y", "x"])).Nodup ∧
      (outputsFor "x" (nameSeq (DSLWriter.init 0) ["x", "y", "x"])).length =
        countReq "x" ["x", "y", "x"] ∧
      (0 < countReq "x" ["x", "y", "x"] →
        (outputsFor "x" (nameSeq (DSLWriter.init 0) ["x", "y", "x"])).head? =
          some "x")) :=
  ⟨rfl, rfl, mangler_unique_names (DSLWriter.init 0) "x" ["x", "y", "x"] rfl rfl⟩

end SkSL
